import Mathlib

/- Verification development for the Logger_simple repository (src/log.hpp):
   a thread-safe, level-filtered, variadic-message file logger.

   Modeling conventions:
   * A message part is represented by its rendered text, i.e. the string that
     `operator<<` produces for the value; a heterogeneous argument pack is a
     `List String` of those renderings, in order.
   * An output stream (`std::ofstream`, `std::stringstream`, `std::cerr`) is
     represented by the text written to it so far; `stream << s` appends `s`.
   * `std::endl` writes exactly one newline character (the flush has no
     observable effect on content).
   * The observable world is `SysState`: the content of the log file plus the
     `std::cerr` side channel.  Whether `std::ofstream::open` succeeds is an
     environment decision and is passed to the constructor model as a Bool.
   * Wall-clock time (`std::time` / `std::localtime`) is an environment input
     and is passed to the logging operations as a broken-down `Tm` value.
   * All functions are total: the C++ code throws nothing on these paths. -/

namespace LoggerModel

/-- Concatenation of a list of rendered fragments in order with no separator
    (the specification-side description of variadic message assembly). -/
def concatAll : List String → String
  | [] => ""
  | s :: rest => s ++ concatAll rest

/-- Number of newline characters in a string; used to count line terminators. -/
def countNewlines (s : String) : Nat := s.data.count '\n'

/-- The four-member severity enumeration `enum class LogLevel` from log.hpp,
    in declaration order DEBUG, INFO, WARNING, ERROR. -/
inductive LogLevel where
  | DEBUG
  | INFO
  | WARNING
  | ERROR
deriving DecidableEq, Repr, Fintype

/-- Underlying integer value of each enumerator (scoped enums number their
    enumerators 0, 1, 2, 3 in declaration order); `operator>=` on `LogLevel`
    compares these values. -/
def LogLevel.toInt : LogLevel → Int
  | .DEBUG => 0
  | .INFO => 1
  | .WARNING => 2
  | .ERROR => 3

/-- Logger::logLevelToString: the switch maps the four enumerators to their
    names and any other underlying value falls through to `""`.  Modeled on
    the underlying integer so that out-of-enumeration values (reachable in
    C++ only by casting) are covered. -/
def logLevelToString (level : Int) : String :=
  if level = 0 then "DEBUG"
  else if level = 1 then "INFO"
  else if level = 2 then "WARNING"
  else if level = 3 then "ERROR"
  else ""

/-- Broken-down local wall-clock time as produced by `std::localtime`, with
    `year` already including the century (what `%Y` prints). -/
structure Tm where
  year : Nat
  month : Nat
  day : Nat
  hour : Nat
  minute : Nat
  second : Nat
deriving DecidableEq, Repr

/-- Two-digit zero-padded decimal field, as `std::put_time` prints `%m`,
    `%d`, `%H`, `%M`, `%S` for in-range `tm` fields. -/
def pad2 (n : Nat) : String := if n < 10 then "0" ++ toString n else toString n

/-- The timestamp `std::put_time(&tm, "%Y-%m-%d %H:%M:%S")` writes into the
    stringstream in Logger::log. -/
def formatTimestamp (t : Tm) : String :=
  toString t.year ++ "-" ++ pad2 t.month ++ "-" ++ pad2 t.day ++ " "
    ++ pad2 t.hour ++ ":" ++ pad2 t.minute ++ ":" ++ pad2 t.second

/-- Logger instance state: the private fields `logLevel`, `logFileName` and
    the open/closed status of the `std::ofstream` handle (`logFile.is_open()`).
    The mutex has no sequential content; it is modeled by the interleaving
    semantics further below. -/
structure Logger where
  logLevel : LogLevel
  logFileName : String
  isOpen : Bool
deriving DecidableEq, Repr

/-- Observable world state: the content of the log file the instance writes
    to, and the `std::cerr` diagnostic side channel. -/
structure SysState where
  fileContent : String
  errStream : String
deriving DecidableEq, Repr

/-- Logger::Logger(logFileName, level): stores the level and name, then opens
    the file with `std::ios_base::app` (append mode), which never changes the
    existing content.  If the open fails, the constructor prints
    `Error opening log file.` plus `std::endl` to `std::cerr` and returns
    normally (it never throws); the handle is left not open. -/
def Logger.construct (logFileName : String) (level : LogLevel)
    (openSucceeds : Bool) (s : SysState) : Logger × SysState :=
  (⟨level, logFileName, openSucceeds⟩,
   if openSucceeds then s
   else { s with errStream := s.errStream ++ "Error opening log file." ++ "\n" })

/-- Logger::~Logger: closes the handle if it is open; the file content is not
    modified. -/
def Logger.destruct (_lg : Logger) (s : SysState) : SysState := s

/-- Logger::setLogLevel: unconditionally replaces the stored minimum level. -/
def Logger.setLogLevel (lg : Logger) (level : LogLevel) : Logger :=
  { lg with logLevel := level }

/-- Logger::logMessage(stream, value, args...): writes `value` to the stream
    (one insertion) and recurses on the strictly shorter remaining pack;
    Logger::logMessage(stream) ends the recursion writing nothing. -/
def logMessage (stream : String) : List String → String
  | [] => stream
  | value :: args => logMessage (stream ++ value) args

/-- Number of recursive unfolding steps (equivalently, stream insertions)
    Logger::logMessage performs for a given argument pack: one per step. -/
def logMessageSteps : List String → Nat
  | [] => 0
  | _ :: args => logMessageSteps args + 1

/-- Logger::log(const std::string& message, Args&&... args): takes the lock
    (`std::lock_guard`), and if the handle is open writes `message`, then the
    arguments via logMessage, then `std::endl`; if the handle is not open it
    writes nothing.  Sequential meaning of the critical section. -/
def Logger.logWrite (lg : Logger) (message : String) (args : List String)
    (s : SysState) : SysState :=
  if lg.isOpen then
    { s with fileContent := logMessage (s.fileContent ++ message) args ++ "\n" }
  else s

/-- The header text Logger::log builds in its stringstream:
    `<timestamp> [<LEVEL_NAME>] <file>:<line> - `. -/
def logHeader (level : LogLevel) (file : String) (line : Int) (now : Tm) :
    String :=
  formatTimestamp now ++ " [" ++ logLevelToString level.toInt ++ "] "
    ++ file ++ ":" ++ toString line ++ " - "

/-- Logger::log(LogLevel level, const char* file, int line, Args&&... args):
    if `level >= logLevel` (underlying-value comparison), format the header
    from the current wall-clock time and delegate to the private overload;
    otherwise return immediately, before any formatting or locking. -/
def Logger.log (lg : Logger) (level : LogLevel) (file : String) (line : Int)
    (args : List String) (now : Tm) (s : SysState) : SysState :=
  if lg.logLevel.toInt ≤ level.toInt then
    lg.logWrite (logHeader level file line now) args s
  else s

/-- Logger::debug: thin forwarder to log with LogLevel::DEBUG. -/
def Logger.debug (lg : Logger) (file : String) (line : Int)
    (args : List String) (now : Tm) (s : SysState) : SysState :=
  lg.log .DEBUG file line args now s

/-- Logger::info: thin forwarder to log with LogLevel::INFO. -/
def Logger.info (lg : Logger) (file : String) (line : Int)
    (args : List String) (now : Tm) (s : SysState) : SysState :=
  lg.log .INFO file line args now s

/-- Logger::warning: thin forwarder to log with LogLevel::WARNING. -/
def Logger.warning (lg : Logger) (file : String) (line : Int)
    (args : List String) (now : Tm) (s : SysState) : SysState :=
  lg.log .WARNING file line args now s

/-- Logger::error: thin forwarder to log with LogLevel::ERROR. -/
def Logger.error (lg : Logger) (file : String) (line : Int)
    (args : List String) (now : Tm) (s : SysState) : SysState :=
  lg.log .ERROR file line args now s

/-- The part of an emitted line before the terminator: header followed by the
    concatenated message parts. -/
def logRecord (level : LogLevel) (file : String) (line : Int)
    (args : List String) (now : Tm) : String :=
  logHeader level file line now ++ concatAll args

/-- A full emitted line: record plus exactly one newline terminator. -/
def logLine (level : LogLevel) (file : String) (line : Int)
    (args : List String) (now : Tm) : String :=
  logRecord level file line args now ++ "\n"

/- ## Interleaving semantics of the critical section.

   Logger::log(const std::string&, ...) holds the mutex for the whole of
   `logFile << message; logMessage(logFile, args...); logFile << std::endl;`.
   A thread that has finished formatting therefore performs, inside the
   critical section, this sequence of separate stream insertions: -/

/-- The individual stream insertions one call performs while holding the
    mutex: the preformatted message, then one insertion per argument, then
    the newline of `std::endl`. -/
def commitPieces (message : String) (args : List String) : List String :=
  message :: args ++ ["\n"]

/-- Per-thread progress through the critical section: `idle` (has not yet
    acquired the lock), `busy k` (holds the lock, k insertions done),
    `finished` (has released the lock). -/
inductive TStatus where
  | idle
  | busy (k : Nat)
  | finished
deriving DecidableEq, Repr

/-- Global configuration of an n-thread run: each thread's progress and the
    current file content. -/
structure Config (n : Nat) where
  threads : Fin n → TStatus
  content : String

/-- One scheduler step.  `pieces i` is the insertion sequence thread `i`
    performs inside its critical section.  Acquiring the mutex (`lock`)
    requires that no other thread is between acquire and release; insertions
    (`push`) are only possible for the lock holder; `unlock` releases it. -/
inductive CStep {n : Nat} (pieces : Fin n → List String) :
    Config n → Config n → Prop where
  | lock (c : Config n) (i : Fin n) (hIdle : c.threads i = .idle)
      (hMutex : ∀ j k, c.threads j ≠ .busy k) :
      CStep pieces c ⟨Function.update c.threads i (.busy 0), c.content⟩
  | push (c : Config n) (i : Fin n) (k : Nat) (hk : k < (pieces i).length)
      (hBusy : c.threads i = .busy k) :
      CStep pieces c ⟨Function.update c.threads i (.busy (k + 1)),
        c.content ++ (pieces i).get ⟨k, hk⟩⟩
  | unlock (c : Config n) (i : Fin n)
      (hEnd : c.threads i = .busy (pieces i).length) :
      CStep pieces c ⟨Function.update c.threads i .finished, c.content⟩

/-- Any finite interleaved execution: reflexive-transitive closure of
    `CStep`. -/
def CSteps {n : Nat} (pieces : Fin n → List String) :
    Config n → Config n → Prop :=
  Relation.ReflTransGen (CStep pieces)

/-- Text thread `i` has inserted so far in a given configuration. -/
def writtenSoFar {n : Nat} (pieces : Fin n → List String)
    (ts : Fin n → TStatus) (i : Fin n) : String :=
  match ts i with
  | .idle => ""
  | .busy k => concatAll ((pieces i).take k)
  | .finished => concatAll (pieces i)

/-- Mutual-exclusion invariant of the interleaving semantics: the threads
    that have entered their critical section so far form a list (in entry
    order) whose completed members wrote their whole insertion sequence, at
    most one member — the current lock holder, necessarily the latest
    entrant — is mid-sequence, and the file content is the initial content
    followed by each entrant's insertions so far, contiguously and in entry
    order. -/
def MutexInv {n : Nat} (pieces : Fin n → List String) (c0 : String)
    (c : Config n) : Prop :=
  ∃ ordd ordc : List (Fin n),
    (ordd ++ ordc).Nodup
    ∧ (∀ i, i ∈ ordd ++ ordc ↔ c.threads i ≠ .idle)
    ∧ (∀ i ∈ ordd, c.threads i = .finished)
    ∧ (∀ i ∈ ordc, ∃ k, c.threads i = .busy k)
    ∧ (∀ j k, c.threads j = .busy k → j ∈ ordc)
    ∧ (ordc = [] ∨ ∃ i, ordc = [i])
    ∧ c.content = c0 ++ concatAll ((ordd ++ ordc).map (writtenSoFar pieces c.threads))

/-- Sequential reference run: the given `error` calls issued one after the
    other in the order of the index list. -/
def seqRunError {n : Nat} (lg : Logger) (files : Fin n → String)
    (lines : Fin n → Int) (argss : Fin n → List String) (nows : Fin n → Tm) :
    List (Fin n) → SysState → SysState
  | [], s => s
  | i :: rest, s =>
      seqRunError lg files lines argss nows rest
        (lg.error (files i) (lines i) (argss i) (nows i) s)

/-- A concrete wall-clock instant used to evaluate the model on closed
    inputs. -/
def tm0 : Tm := ⟨2024, 1, 1, 12, 0, 0⟩

/- ## Helper lemmas -/

theorem strAppend_assoc (a b c : String) : a ++ b ++ c = a ++ (b ++ c) := by
  apply String.ext
  simp [String.data_append]

theorem strAppend_empty (a : String) : a ++ "" = a := by
  apply String.ext
  simp [String.data_append]

theorem strEmpty_append (a : String) : "" ++ a = a := by
  apply String.ext
  simp [String.data_append]

theorem countNewlines_append (a b : String) :
    countNewlines (a ++ b) = countNewlines a + countNewlines b := by
  simp [countNewlines, String.data_append]

theorem concatAll_append (l1 l2 : List String) :
    concatAll (l1 ++ l2) = concatAll l1 ++ concatAll l2 := by
  induction l1 with
  | nil => simp [concatAll, strEmpty_append]
  | cons a rest ih => simp [concatAll, ih, strAppend_assoc]

theorem logMessage_eq_concatAll (stream : String) (args : List String) :
    logMessage stream args = stream ++ concatAll args := by
  induction args generalizing stream with
  | nil => simp [logMessage, concatAll, strAppend_empty]
  | cons a rest ih => simp [logMessage, concatAll, ih, strAppend_assoc]

theorem countNewlines_concatAll (args : List String)
    (h : ∀ a ∈ args, countNewlines a = 0) : countNewlines (concatAll args) = 0 := by
  induction args with
  | nil => decide
  | cons a rest ih =>
      rw [concatAll, countNewlines_append, h a (List.mem_cons_self a rest),
        ih fun b hb => h b (List.mem_cons_of_mem a hb)]

theorem digitChar_ne_newline (k : Nat) : Nat.digitChar k ≠ '\n' := by
  by_cases h : k < 16
  · interval_cases k <;> decide
  · have he : Nat.digitChar k = '*' := by
      unfold Nat.digitChar
      repeat rw [if_neg (by omega)]
    rw [he]
    decide

theorem toDigitsCore_chars (b : Nat) (fuel : Nat) :
    ∀ (n : Nat) (ds : List Char) (c : Char), c ∈ Nat.toDigitsCore b fuel n ds →
      (∃ m, c = Nat.digitChar m) ∨ c ∈ ds := by
  induction fuel with
  | zero => intro n ds c hc; simp [Nat.toDigitsCore] at hc; exact Or.inr hc
  | succ fuel ih =>
    intro n ds c hc
    simp only [Nat.toDigitsCore] at hc
    split at hc
    · rcases List.mem_cons.mp hc with h | h
      · exact Or.inl ⟨n % b, h⟩
      · exact Or.inr h
    · rcases ih (n / b) (Nat.digitChar (n % b) :: ds) c hc with h | h
      · exact Or.inl h
      · rcases List.mem_cons.mp h with h2 | h2
        · exact Or.inl ⟨n % b, h2⟩
        · exact Or.inr h2

theorem countNewlines_natRepr (n : Nat) : countNewlines (Nat.repr n) = 0 := by
  rw [countNewlines, List.count_eq_zero]
  intro hc
  have hmem : '\n' ∈ Nat.toDigits 10 n := by
    simpa [Nat.repr, List.asString] using hc
  rcases toDigitsCore_chars 10 (n + 1) n [] _ hmem with ⟨m, hm⟩ | h
  · exact digitChar_ne_newline m hm.symm
  · simp at h

theorem countNewlines_toString_int (i : Int) : countNewlines (toString i) = 0 := by
  show countNewlines (Int.repr i) = 0
  cases i with
  | ofNat m => simpa [Int.repr] using countNewlines_natRepr m
  | negSucc m =>
      rw [Int.repr, countNewlines_append, countNewlines_natRepr]
      decide

theorem countNewlines_pad2 (n : Nat) : countNewlines (pad2 n) = 0 := by
  rw [pad2]
  split
  · rw [countNewlines_append]
    rw [show countNewlines "0" = 0 from by decide]
    rw [show toString n = Nat.repr n from rfl, countNewlines_natRepr]
  · rw [show toString n = Nat.repr n from rfl, countNewlines_natRepr]

theorem countNewlines_formatTimestamp (t : Tm) :
    countNewlines (formatTimestamp t) = 0 := by
  rw [formatTimestamp]
  rw [countNewlines_append, countNewlines_append, countNewlines_append,
    countNewlines_append, countNewlines_append, countNewlines_append,
    countNewlines_append, countNewlines_append, countNewlines_append,
    countNewlines_append]
  rw [show toString t.year = Nat.repr t.year from rfl, countNewlines_natRepr]
  rw [countNewlines_pad2, countNewlines_pad2, countNewlines_pad2,
    countNewlines_pad2, countNewlines_pad2]
  decide

theorem countNewlines_logLevelToString (v : Int) :
    countNewlines (logLevelToString v) = 0 := by
  rw [logLevelToString]
  split_ifs <;> decide

theorem countNewlines_logHeader (level : LogLevel) (file : String) (line : Int)
    (now : Tm) (hFile : countNewlines file = 0) :
    countNewlines (logHeader level file line now) = 0 := by
  rw [logHeader]
  simp only [countNewlines_append, countNewlines_formatTimestamp,
    countNewlines_logLevelToString, hFile, countNewlines_toString_int]
  decide

theorem countNewlines_logRecord (level : LogLevel) (file : String) (line : Int)
    (args : List String) (now : Tm) (hFile : countNewlines file = 0)
    (hArgs : ∀ a ∈ args, countNewlines a = 0) :
    countNewlines (logRecord level file line args now) = 0 := by
  rw [logRecord, countNewlines_append,
    countNewlines_logHeader level file line now hFile,
    countNewlines_concatAll args hArgs]

theorem pad2_length (n : Nat) (h : n < 100) : (pad2 n).length = 2 := by
  interval_cases n <;> decide

theorem logWrite_open (lg : Logger) (message : String) (args : List String)
    (s : SysState) (hOpen : lg.isOpen = true) :
    lg.logWrite message args s
      = { s with fileContent := s.fileContent ++ (message ++ concatAll args ++ "\n") } := by
  rw [Logger.logWrite, if_pos hOpen, logMessage_eq_concatAll]
  simp [strAppend_assoc]

theorem log_emit (lg : Logger) (level : LogLevel) (file : String) (line : Int)
    (args : List String) (now : Tm) (s : SysState)
    (hLv : lg.logLevel.toInt ≤ level.toInt) (hOpen : lg.isOpen = true) :
    lg.log level file line args now s
      = { s with fileContent := s.fileContent ++ logLine level file line args now } := by
  rw [Logger.log, if_pos hLv, logWrite_open lg _ args s hOpen,
    logLine, logRecord]

theorem log_skip (lg : Logger) (level : LogLevel) (file : String) (line : Int)
    (args : List String) (now : Tm) (s : SysState)
    (hLv : level.toInt < lg.logLevel.toInt) :
    lg.log level file line args now s = s := by
  rw [Logger.log, if_neg (by omega)]

theorem toInt_le_three (l : LogLevel) : l.toInt ≤ 3 := by
  cases l <;> decide

theorem concatAll_take_succ (l : List String) (k : Nat) (h : k < l.length) :
    concatAll (l.take (k + 1)) = concatAll (l.take k) ++ l.get ⟨k, h⟩ := by
  rw [List.take_succ, concatAll_append, List.getElem?_eq_getElem h]
  rw [show concatAll (some l[k]).toList = l[k] ++ concatAll [] from rfl]
  rw [show concatAll ([] : List String) = "" from rfl, strAppend_empty]
  rfl

theorem concatAll_commitPieces (m : String) (args : List String) :
    concatAll (commitPieces m args) = m ++ concatAll args ++ "\n" := by
  simp only [commitPieces, concatAll, List.append_eq, concatAll_append,
    strAppend_empty, strAppend_assoc]

theorem countNewlines_concatAll_ones (l : List String)
    (h : ∀ a ∈ l, countNewlines a = 1) :
    countNewlines (concatAll l) = l.length := by
  induction l with
  | nil => decide
  | cons a rest ih =>
      rw [concatAll, countNewlines_append, h a (List.mem_cons_self a rest),
        ih fun b hb => h b (List.mem_cons_of_mem a hb), List.length_cons]
      omega

theorem countNewlines_logLine (level : LogLevel) (file : String) (line : Int)
    (args : List String) (now : Tm) (hFile : countNewlines file = 0)
    (hArgs : ∀ a ∈ args, countNewlines a = 0) :
    countNewlines (logLine level file line args now) = 1 := by
  rw [logLine, countNewlines_append,
    countNewlines_logRecord level file line args now hFile hArgs]
  decide

theorem seqRunError_content {n : Nat} (lg : Logger)
    (files : Fin n → String) (lines : Fin n → Int)
    (argss : Fin n → List String) (nows : Fin n → Tm)
    (ord : List (Fin n)) (s : SysState) (hOpen : lg.isOpen = true) :
    (seqRunError lg files lines argss nows ord s).fileContent
      = s.fileContent ++ concatAll (ord.map fun i =>
          logLine .ERROR (files i) (lines i) (argss i) (nows i)) := by
  induction ord generalizing s with
  | nil =>
      rw [seqRunError, List.map_nil,
        show concatAll ([] : List String) = "" from rfl, strAppend_empty]
  | cons i rest ih =>
      rw [seqRunError, ih]
      rw [show lg.error (files i) (lines i) (argss i) (nows i) s
          = lg.log .ERROR (files i) (lines i) (argss i) (nows i) s from rfl]
      rw [log_emit lg .ERROR (files i) (lines i) (argss i) (nows i) s
        (toInt_le_three lg.logLevel) hOpen]
      rw [List.map_cons, concatAll, strAppend_assoc]

theorem writtenSoFar_congr {n : Nat} (pieces : Fin n → List String)
    (ts ts2 : Fin n → TStatus) (j : Fin n) (h : ts2 j = ts j) :
    writtenSoFar pieces ts2 j = writtenSoFar pieces ts j := by
  unfold writtenSoFar
  rw [h]

theorem writtenSoFar_busy {n : Nat} (pieces : Fin n → List String)
    (ts : Fin n → TStatus) (i : Fin n) (k : Nat) (h : ts i = .busy k) :
    writtenSoFar pieces ts i = concatAll ((pieces i).take k) := by
  unfold writtenSoFar
  rw [h]

theorem writtenSoFar_finished {n : Nat} (pieces : Fin n → List String)
    (ts : Fin n → TStatus) (i : Fin n) (h : ts i = .finished) :
    writtenSoFar pieces ts i = concatAll (pieces i) := by
  unfold writtenSoFar
  rw [h]

theorem mutexInv_lock {n : Nat} (pieces : Fin n → List String) (c0 : String)
    (c : Config n) (i : Fin n) (hIdle : c.threads i = .idle)
    (hMutex : ∀ j k, c.threads j ≠ .busy k)
    (hinv : MutexInv pieces c0 c) :
    MutexInv pieces c0 ⟨Function.update c.threads i (.busy 0), c.content⟩ := by
  obtain ⟨ordd, ordc, hnd, hmem, hfin, hbusy, hbin, hsz, hcon⟩ := hinv
  have hc : ordc = [] := by
    rcases hsz with h | ⟨i0, h⟩
    · exact h
    · exfalso
      obtain ⟨k, hk⟩ := hbusy i0 (by rw [h]; exact List.mem_singleton.mpr rfl)
      exact hMutex i0 k hk
  subst hc
  simp only [List.append_nil] at hnd hmem hcon
  have hni : i ∉ ordd := fun hmemi => (hmem i).mp hmemi hIdle
  refine ⟨ordd, [i], ?_, ?_, ?_, ?_, ?_, Or.inr ⟨i, rfl⟩, ?_⟩
  · rw [List.nodup_append]
    exact ⟨hnd, List.nodup_singleton i, by simpa using hni⟩
  · intro j
    dsimp only
    by_cases hj : j = i
    · rw [hj, Function.update_same]
      simp
    · rw [Function.update_noteq hj]
      simp only [List.mem_append, List.mem_singleton, hj, or_false]
      exact hmem j
  · intro j hj
    dsimp only
    have hji : j ≠ i := fun h => hni (by rw [← h]; exact hj)
    rw [Function.update_noteq hji]
    exact hfin j hj
  · intro j hj
    dsimp only
    rw [List.mem_singleton] at hj
    exact ⟨0, by rw [hj, Function.update_same]⟩
  · intro j k hjk
    dsimp only at hjk
    by_cases hj : j = i
    · rw [hj]
      exact List.mem_singleton.mpr rfl
    · rw [Function.update_noteq hj] at hjk
      exact absurd hjk (hMutex j k)
  · dsimp only
    rw [hcon, List.map_append, concatAll_append]
    have h2 : ordd.map (writtenSoFar pieces (Function.update c.threads i (.busy 0)))
        = ordd.map (writtenSoFar pieces c.threads) :=
      List.map_congr_left fun j hj =>
        writtenSoFar_congr pieces c.threads _ j
          (Function.update_noteq (fun h => hni (by rw [← h]; exact hj)) _ _)
    have h3 : concatAll ([i].map
        (writtenSoFar pieces (Function.update c.threads i (.busy 0)))) = "" := by
      rw [List.map_cons, List.map_nil]
      rw [show concatAll [writtenSoFar pieces
          (Function.update c.threads i (.busy 0)) i]
        = writtenSoFar pieces (Function.update c.threads i (.busy 0)) i ++ ""
        from rfl]
      rw [strAppend_empty,
        writtenSoFar_busy pieces _ i 0 (by rw [Function.update_same]),
        List.take_zero]
      rfl
    rw [h2, h3, strAppend_empty]

theorem mutexInv_push {n : Nat} (pieces : Fin n → List String) (c0 : String)
    (c : Config n) (i : Fin n) (k : Nat) (hk : k < (pieces i).length)
    (hBusy : c.threads i = .busy k) (hinv : MutexInv pieces c0 c) :
    MutexInv pieces c0 ⟨Function.update c.threads i (.busy (k + 1)),
      c.content ++ (pieces i).get ⟨k, hk⟩⟩ := by
  obtain ⟨ordd, ordc, hnd, hmem, hfin, hbusy, hbin, hsz, hcon⟩ := hinv
  have hc : ordc = [i] := by
    have hiin : i ∈ ordc := hbin i k hBusy
    rcases hsz with h | ⟨i0, h⟩
    · rw [h] at hiin
      exact absurd hiin (List.not_mem_nil i)
    · rw [h] at hiin ⊢
      rw [List.mem_singleton] at hiin
      rw [hiin]
  subst hc
  have hni : i ∉ ordd := by
    intro hmm
    exact (List.nodup_append.mp hnd).2.2 hmm (List.mem_singleton.mpr rfl)
  refine ⟨ordd, [i], hnd, ?_, ?_, ?_, ?_, Or.inr ⟨i, rfl⟩, ?_⟩
  · intro j
    dsimp only
    by_cases hj : j = i
    · rw [hj, Function.update_same]
      simp
    · rw [Function.update_noteq hj]
      exact hmem j
  · intro j hj
    dsimp only
    have hji : j ≠ i := fun h => hni (by rw [← h]; exact hj)
    rw [Function.update_noteq hji]
    exact hfin j hj
  · intro j hj
    dsimp only
    rw [List.mem_singleton] at hj
    exact ⟨k + 1, by rw [hj, Function.update_same]⟩
  · intro j k2 hjk
    dsimp only at hjk
    by_cases hj : j = i
    · rw [hj]
      exact List.mem_singleton.mpr rfl
    · rw [Function.update_noteq hj] at hjk
      exact hbin j k2 hjk
  · dsimp only
    rw [hcon, List.map_append, concatAll_append, List.map_append,
      concatAll_append]
    have h2 : ordd.map (writtenSoFar pieces
          (Function.update c.threads i (.busy (k + 1))))
        = ordd.map (writtenSoFar pieces c.threads) :=
      List.map_congr_left fun j hj =>
        writtenSoFar_congr pieces c.threads _ j
          (Function.update_noteq (fun h => hni (by rw [← h]; exact hj)) _ _)
    rw [h2, List.map_cons, List.map_nil, List.map_cons, List.map_nil]
    rw [show concatAll [writtenSoFar pieces c.threads i]
        = writtenSoFar pieces c.threads i ++ "" from rfl]
    rw [show concatAll [writtenSoFar pieces
          (Function.update c.threads i (.busy (k + 1))) i]
        = writtenSoFar pieces
            (Function.update c.threads i (.busy (k + 1))) i ++ ""
        from rfl]
    rw [writtenSoFar_busy pieces c.threads i k hBusy,
      writtenSoFar_busy pieces _ i (k + 1) (by rw [Function.update_same]),
      concatAll_take_succ _ k hk]
    simp only [strAppend_empty, strAppend_assoc]

theorem mutexInv_unlock {n : Nat} (pieces : Fin n → List String) (c0 : String)
    (c : Config n) (i : Fin n)
    (hEnd : c.threads i = .busy (pieces i).length)
    (hinv : MutexInv pieces c0 c) :
    MutexInv pieces c0 ⟨Function.update c.threads i .finished, c.content⟩ := by
  obtain ⟨ordd, ordc, hnd, hmem, hfin, hbusy, hbin, hsz, hcon⟩ := hinv
  have hc : ordc = [i] := by
    have hiin : i ∈ ordc := hbin i (pieces i).length hEnd
    rcases hsz with h | ⟨i0, h⟩
    · rw [h] at hiin
      exact absurd hiin (List.not_mem_nil i)
    · rw [h] at hiin ⊢
      rw [List.mem_singleton] at hiin
      rw [hiin]
  subst hc
  have hni : i ∉ ordd := by
    intro hmm
    exact (List.nodup_append.mp hnd).2.2 hmm (List.mem_singleton.mpr rfl)
  refine ⟨ordd ++ [i], [], ?_, ?_, ?_, ?_, ?_, Or.inl rfl, ?_⟩
  · rw [List.append_nil]
    exact hnd
  · intro j
    dsimp only
    rw [List.append_nil]
    by_cases hj : j = i
    · rw [hj, Function.update_same]
      simp
    · rw [Function.update_noteq hj]
      exact hmem j
  · intro j hj
    dsimp only
    by_cases hji : j = i
    · rw [hji, Function.update_same]
    · rw [Function.update_noteq hji]
      rw [List.mem_append, List.mem_singleton] at hj
      rcases hj with hj | hj
      · exact hfin j hj
      · exact absurd hj hji
  · intro j hj
    exact absurd hj (List.not_mem_nil j)
  · intro j k2 hjk
    dsimp only at hjk
    exfalso
    by_cases hj : j = i
    · rw [hj, Function.update_same] at hjk
      exact TStatus.noConfusion hjk
    · rw [Function.update_noteq hj] at hjk
      have := hbin j k2 hjk
      rw [List.mem_singleton] at this
      exact hj this
  · dsimp only
    rw [hcon, List.append_nil]
    congr 1
    congr 1
    apply List.map_congr_left
    intro j hj
    by_cases hji : j = i
    · rw [hji, writtenSoFar_busy pieces c.threads i (pieces i).length hEnd,
        List.take_length,
        writtenSoFar_finished pieces _ i (by rw [Function.update_same])]
    · exact (writtenSoFar_congr pieces c.threads _ j
        (Function.update_noteq hji _ _)).symm

theorem mutexInv_step {n : Nat} (pieces : Fin n → List String) (c0 : String)
    (c c2 : Config n) (h : CStep pieces c c2) (hinv : MutexInv pieces c0 c) :
    MutexInv pieces c0 c2 := by
  cases h with
  | lock i hIdle hMutex => exact mutexInv_lock pieces c0 c i hIdle hMutex hinv
  | push i k hk hBusy => exact mutexInv_push pieces c0 c i k hk hBusy hinv
  | unlock i hEnd => exact mutexInv_unlock pieces c0 c i hEnd hinv

theorem mutexInv_init {n : Nat} (pieces : Fin n → List String) (c0 : String) :
    MutexInv pieces c0 ⟨fun _ => .idle, c0⟩ := by
  refine ⟨[], [], List.nodup_nil, ?_, ?_, ?_, ?_, Or.inl rfl, ?_⟩
  · intro i
    simp
  · intro j hj
    exact absurd hj (List.not_mem_nil j)
  · intro j hj
    exact absurd hj (List.not_mem_nil j)
  · intro j k hjk
    exact TStatus.noConfusion hjk
  · dsimp only
    rw [show concatAll ((([] ++ [] : List (Fin n))).map
        (writtenSoFar pieces fun _ => .idle)) = "" from rfl, strAppend_empty]

theorem mutexInv_steps {n : Nat} (pieces : Fin n → List String) (c0 : String)
    (c c2 : Config n) (h : CSteps pieces c c2) (hinv : MutexInv pieces c0 c) :
    MutexInv pieces c0 c2 := by
  have h2 : Relation.ReflTransGen (CStep pieces) c c2 := h
  clear h
  induction h2 with
  | refl => exact hinv
  | tail _ hstep ih => exact mutexInv_step pieces c0 _ _ hstep ih

theorem mutexInv_final {n : Nat} (pieces : Fin n → List String) (c0 : String)
    (c : Config n) (hinv : MutexInv pieces c0 c)
    (hdone : ∀ i, c.threads i = .finished) :
    ∃ ord : List (Fin n), ord.Nodup ∧ (∀ i, i ∈ ord) ∧ ord.length = n
      ∧ c.content = c0 ++ concatAll (ord.map fun i => concatAll (pieces i)) := by
  obtain ⟨ordd, ordc, hnd, hmem, hfin, hbusy, hbin, hsz, hcon⟩ := hinv
  have hc : ordc = [] := by
    rcases hsz with h | ⟨i0, h⟩
    · exact h
    · exfalso
      obtain ⟨k, hk⟩ := hbusy i0 (by rw [h]; exact List.mem_singleton.mpr rfl)
      rw [hdone i0] at hk
      exact TStatus.noConfusion hk
  subst hc
  simp only [List.append_nil] at hnd hmem hcon
  have hall : ∀ i, i ∈ ordd := by
    intro i
    refine (hmem i).mpr ?_
    rw [hdone i]
    intro h
    exact TStatus.noConfusion h
  refine ⟨ordd, hnd, hall, ?_, ?_⟩
  · have huniv : ordd.toFinset = Finset.univ :=
      Finset.eq_univ_iff_forall.mpr fun i => List.mem_toFinset.mpr (hall i)
    calc ordd.length = ordd.toFinset.card :=
          (List.toFinset_card_of_nodup hnd).symm
      _ = n := by rw [huniv, Finset.card_univ, Fintype.card_fin]
  · rw [hcon]
    congr 1
    congr 1
    apply List.map_congr_left
    intro j _
    exact writtenSoFar_finished pieces c.threads j (hdone j)

/- ## Claim theorems -/

/-- C1: with an open handle, a call to log appends exactly one line — the
    record followed by one newline, the record itself newline-free — when the
    event level is at least the minimum level, and leaves the state untouched
    (early return) when it is below; each entry point behaves as log at its
    fixed severity. -/
theorem C1_level_filtering (lg : Logger) (level : LogLevel) (file : String)
    (line : Int) (args : List String) (now : Tm) (s : SysState)
    (hOpen : lg.isOpen = true) (hFile : countNewlines file = 0)
    (hArgs : ∀ a ∈ args, countNewlines a = 0) :
    (lg.logLevel.toInt ≤ level.toInt →
        (lg.log level file line args now s).fileContent
            = s.fileContent ++ logLine level file line args now
          ∧ logLine level file line args now
              = logRecord level file line args now ++ "\n"
          ∧ countNewlines (logRecord level file line args now) = 0
          ∧ countNewlines (lg.log level file line args now s).fileContent
              = countNewlines s.fileContent + 1)
    ∧ (level.toInt < lg.logLevel.toInt → lg.log level file line args now s = s)
    ∧ lg.debug file line args now s = lg.log .DEBUG file line args now s
    ∧ lg.info file line args now s = lg.log .INFO file line args now s
    ∧ lg.warning file line args now s = lg.log .WARNING file line args now s
    ∧ lg.error file line args now s = lg.log .ERROR file line args now s := by
  refine ⟨?_, ?_, rfl, rfl, rfl, rfl⟩
  · intro hLv
    have he := log_emit lg level file line args now s hLv hOpen
    refine ⟨by rw [he], rfl,
      countNewlines_logRecord level file line args now hFile hArgs, ?_⟩
    rw [he]
    show countNewlines (s.fileContent ++ logLine level file line args now) = _
    rw [countNewlines_append, logLine, countNewlines_append,
      countNewlines_logRecord level file line args now hFile hArgs,
      show countNewlines "\n" = 1 from by decide]
  · intro hLv
    exact log_skip lg level file line args now s hLv

/-- C1 witness: a concrete INFO-threshold logger emits exactly the expected
    line for an ERROR event and is unchanged by a DEBUG event. -/
theorem C1_level_filtering_witness :
    ((⟨LogLevel.INFO, "my_log.txt", true⟩ : Logger).log .ERROR "main.cpp" 42
        ["Server started"] tm0 ⟨"", ""⟩).fileContent
      = "2024-01-01 12:00:00 [ERROR] main.cpp:42 - Server started" ++ "\n"
    ∧ (⟨LogLevel.INFO, "my_log.txt", true⟩ : Logger).log .DEBUG "main.cpp" 43
        ["x"] tm0 ⟨"", ""⟩ = ⟨"", ""⟩ := by
  have h1 := C1_level_filtering ⟨.INFO, "my_log.txt", true⟩ .ERROR "main.cpp"
    42 ["Server started"] tm0 ⟨"", ""⟩ rfl (by decide) (by decide)
  have h2 := C1_level_filtering ⟨.INFO, "my_log.txt", true⟩ .DEBUG "main.cpp"
    43 ["x"] tm0 ⟨"", ""⟩ rfl (by decide) (by decide)
  exact ⟨((h1.1 (by decide)).1).trans (by decide), h2.2.1 (by decide)⟩

/-- C2: every emitted line is exactly the header
    `<timestamp> [<LEVEL_NAME>] <file>:<line> - ` (timestamp
    `YYYY-MM-DD HH:MM:SS`, two-digit zero-padded fields) followed by the
    concatenated parts and one terminator, with no other characters; the cerr
    channel is untouched. -/
theorem C2_line_format (lg : Logger) (level : LogLevel) (file : String)
    (line : Int) (args : List String) (now : Tm) (s : SysState)
    (hOpen : lg.isOpen = true) (hLv : lg.logLevel.toInt ≤ level.toInt) :
    (lg.log level file line args now s).fileContent
        = s.fileContent
          ++ (formatTimestamp now ++ " [" ++ logLevelToString level.toInt
              ++ "] " ++ file ++ ":" ++ toString line ++ " - "
              ++ concatAll args ++ "\n")
    ∧ formatTimestamp now
        = toString now.year ++ "-" ++ pad2 now.month ++ "-" ++ pad2 now.day
          ++ " " ++ pad2 now.hour ++ ":" ++ pad2 now.minute ++ ":"
          ++ pad2 now.second
    ∧ (∀ m, m < 100 → (pad2 m).length = 2)
    ∧ (lg.log level file line args now s).errStream = s.errStream := by
  have he := log_emit lg level file line args now s hLv hOpen
  refine ⟨?_, rfl, fun m hm => pad2_length m hm, by rw [he]⟩
  rw [he]
  show s.fileContent ++ logLine level file line args now = _
  simp only [logLine, logRecord, logHeader, strAppend_assoc]

/-- C2 witness: the emitted line for a concrete call, evaluated to a literal
    string, appended after existing content. -/
theorem C2_line_format_witness :
    ((⟨LogLevel.INFO, "my_log.txt", true⟩ : Logger).log .INFO "main.cpp" 42
        ["Server started on port ", "8080"] tm0 ⟨"prev" ++ "\n", ""⟩).fileContent
      = "prev" ++ "\n"
        ++ "2024-01-01 12:00:00 [INFO] main.cpp:42 - Server started on port 8080"
        ++ "\n" := by
  have h := C2_line_format ⟨.INFO, "my_log.txt", true⟩ .INFO "main.cpp" 42
    ["Server started on port ", "8080"] tm0 ⟨"prev" ++ "\n", ""⟩ rfl (by decide)
  exact h.1.trans (by decide)

/-- C3: the body written after the header is the in-order concatenation of
    the parts with no separator; the empty pack is legal and yields a line of
    just the header. -/
theorem C3_no_separator_concat (lg : Logger) (level : LogLevel) (file : String)
    (line : Int) (args : List String) (now : Tm) (s : SysState)
    (hOpen : lg.isOpen = true) (hLv : lg.logLevel.toInt ≤ level.toInt) :
    (lg.log level file line args now s).fileContent
        = s.fileContent ++ logHeader level file line now ++ concatAll args
          ++ "\n"
    ∧ concatAll [] = ""
    ∧ (∀ p rest, concatAll (p :: rest) = p ++ concatAll rest)
    ∧ (∀ stream, logMessage stream args = stream ++ concatAll args)
    ∧ (args = [] →
        (lg.log level file line args now s).fileContent
          = s.fileContent ++ logHeader level file line now ++ "\n") := by
  have he := log_emit lg level file line args now s hLv hOpen
  have hc : (lg.log level file line args now s).fileContent
      = s.fileContent ++ logHeader level file line now ++ concatAll args
        ++ "\n" := by
    rw [he]
    show s.fileContent ++ logLine level file line args now = _
    simp only [logLine, logRecord, strAppend_assoc]
  refine ⟨hc, rfl, fun p rest => rfl,
    fun stream => logMessage_eq_concatAll stream args, ?_⟩
  intro hargs
  subst hargs
  rw [hc, show concatAll ([] : List String) = "" from rfl, strAppend_empty]

/-- C3 witness: parts rendered "a", "1", "b" yield the body a1b directly
    after the header, with no inserted separator. -/
theorem C3_no_separator_concat_witness :
    ((⟨LogLevel.INFO, "my_log.txt", true⟩ : Logger).log .INFO "main.cpp" 7
        ["a", "1", "b"] tm0 ⟨"", ""⟩).fileContent
      = "2024-01-01 12:00:00 [INFO] main.cpp:7 - " ++ "a1b" ++ "\n" := by
  have h := C3_no_separator_concat ⟨.INFO, "my_log.txt", true⟩ .INFO
    "main.cpp" 7 ["a", "1", "b"] tm0 ⟨"", ""⟩ rfl (by decide)
  exact h.1.trans (by decide)

/-- C4: a failed open leaves the file untouched, reports only on the cerr
    side channel, and leaves the handle closed; every logging call on a
    not-open logger is a silent no-op returning the state unchanged (the
    model is total: nothing is thrown anywhere on these paths, and a call
    never alters the logger's own fields). -/
theorem C4_open_failure_resilience (name : String) (level : LogLevel)
    (s0 : SysState) (lg : Logger) (file : String) (line : Int)
    (args : List String) (now : Tm) (s : SysState)
    (hOpen : lg.isOpen = false) :
    ((Logger.construct name level false s0).2.fileContent = s0.fileContent
      ∧ (Logger.construct name level false s0).2.errStream
          = s0.errStream ++ "Error opening log file." ++ "\n"
      ∧ (Logger.construct name level false s0).1.isOpen = false)
    ∧ lg.debug file line args now s = s
    ∧ lg.info file line args now s = s
    ∧ lg.warning file line args now s = s
    ∧ lg.error file line args now s = s
    ∧ lg.log level file line args now s = s := by
  have hnoop : ∀ lv : LogLevel, lg.log lv file line args now s = s := by
    intro lv
    rw [Logger.log]
    split
    · rw [Logger.logWrite, hOpen]
      simp
    · rfl
  exact ⟨⟨rfl, rfl, rfl⟩, hnoop .DEBUG, hnoop .INFO, hnoop .WARNING,
    hnoop .ERROR, hnoop level⟩

/-- C4 witness: a concrete logger whose open failed drops an ERROR write
    silently, and the failed construction only touches the cerr channel. -/
theorem C4_open_failure_resilience_witness :
    (⟨LogLevel.INFO, "/bad/path.txt", false⟩ : Logger).isOpen = false
    ∧ (Logger.construct "/bad/path.txt" LogLevel.INFO false ⟨"", ""⟩).2.fileContent
        = ""
    ∧ (⟨LogLevel.INFO, "/bad/path.txt", false⟩ : Logger).error "m" 1 ["x"] tm0
        ⟨"", ""⟩ = ⟨"", ""⟩ := by
  have h := C4_open_failure_resilience "/bad/path.txt" .INFO ⟨"", ""⟩
    ⟨.INFO, "/bad/path.txt", false⟩ "m" 1 ["x"] tm0 ⟨"", ""⟩ rfl
  exact ⟨rfl, h.1.1, h.2.2.2.2.1⟩

/-- C5: the level-to-name mapping sends the four enumerators to their names
    and every underlying value outside the enumeration to the empty string,
    totally and without failure. -/
theorem C5_level_to_string :
    logLevelToString LogLevel.DEBUG.toInt = "DEBUG"
    ∧ logLevelToString LogLevel.INFO.toInt = "INFO"
    ∧ logLevelToString LogLevel.WARNING.toInt = "WARNING"
    ∧ logLevelToString LogLevel.ERROR.toInt = "ERROR"
    ∧ ∀ v : Int, (∀ l : LogLevel, v ≠ l.toInt) → logLevelToString v = "" := by
  refine ⟨rfl, rfl, rfl, rfl, ?_⟩
  intro v hv
  rw [logLevelToString, if_neg (show v ≠ (0 : Int) from hv .DEBUG),
    if_neg (show v ≠ (1 : Int) from hv .INFO),
    if_neg (show v ≠ (2 : Int) from hv .WARNING),
    if_neg (show v ≠ (3 : Int) from hv .ERROR)]

/-- C5 witness: the defensive default at the out-of-enumeration value 42. -/
theorem C5_level_to_string_witness :
    (∀ l : LogLevel, (42 : Int) ≠ l.toInt) ∧ logLevelToString 42 = "" :=
  ⟨by decide, C5_level_to_string.2.2.2.2 42 (by decide)⟩

/-- C6: setLogLevel replaces the threshold unconditionally, touches no other
    field, and every filter check made afterwards reads the new threshold:
    after setLogLevel l, an event passes iff its level is at least l. -/
theorem C6_set_level_effective (lg : Logger) (l : LogLevel) :
    (lg.setLogLevel l).logLevel = l
    ∧ (lg.setLogLevel l).logFileName = lg.logFileName
    ∧ (lg.setLogLevel l).isOpen = lg.isOpen
    ∧ (∀ (level : LogLevel) (file : String) (line : Int) (args : List String)
        (now : Tm) (s : SysState), l.toInt ≤ level.toInt →
          (lg.setLogLevel l).log level file line args now s
            = lg.logWrite (logHeader level file line now) args s)
    ∧ (∀ (level : LogLevel) (file : String) (line : Int) (args : List String)
        (now : Tm) (s : SysState), level.toInt < l.toInt →
          (lg.setLogLevel l).log level file line args now s = s) := by
  refine ⟨rfl, rfl, rfl, ?_, ?_⟩
  · intro level file line args now s hLv
    rw [Logger.log,
      if_pos (show (lg.setLogLevel l).logLevel.toInt ≤ level.toInt from hLv)]
    rfl
  · intro level file line args now s hLv
    exact log_skip (lg.setLogLevel l) level file line args now s hLv

/-- C6 witness: on a fresh INFO logger, setLogLevel WARNING suppresses a
    subsequent info call and lets a subsequent error call append exactly its
    line. -/
theorem C6_set_level_effective_witness :
    ((⟨LogLevel.INFO, "my_log.txt", true⟩ : Logger).setLogLevel .WARNING).info
        "main.cpp" 10 ["Info message."] tm0 ⟨"", ""⟩ = ⟨"", ""⟩
    ∧ (((⟨LogLevel.INFO, "my_log.txt", true⟩ : Logger).setLogLevel
          .WARNING).error "main.cpp" 11 ["Error message."] tm0
            ⟨"", ""⟩).fileContent
        = "2024-01-01 12:00:00 [ERROR] main.cpp:11 - Error message." ++ "\n" := by
  have h := C6_set_level_effective ⟨.INFO, "my_log.txt", true⟩ .WARNING
  constructor
  · exact h.2.2.2.2 .INFO "main.cpp" 10 ["Info message."] tm0 ⟨"", ""⟩
      (by decide)
  · have he := h.2.2.2.1 .ERROR "main.cpp" 11 ["Error message."] tm0 ⟨"", ""⟩
      (by decide)
    rw [show ((⟨LogLevel.INFO, "my_log.txt", true⟩ : Logger).setLogLevel
        .WARNING).error "main.cpp" 11 ["Error message."] tm0 ⟨"", ""⟩
      = ((⟨LogLevel.INFO, "my_log.txt", true⟩ : Logger).setLogLevel
        .WARNING).log .ERROR "main.cpp" 11 ["Error message."] tm0 ⟨"", ""⟩
      from rfl, he]
    decide

/-- C7: each of debug, info, warning, error equals the generic log applied at
    its fixed severity with the same source tag and parts, for every input
    state; log returns the whole observable state, so the file effect and
    the final state coincide (the logger's own fields are never written by
    any of these calls). -/
theorem C7_forwarders (lg : Logger) (file : String) (line : Int)
    (args : List String) (now : Tm) (s : SysState) :
    lg.debug file line args now s = lg.log .DEBUG file line args now s
    ∧ lg.info file line args now s = lg.log .INFO file line args now s
    ∧ lg.warning file line args now s = lg.log .WARNING file line args now s
    ∧ lg.error file line args now s = lg.log .ERROR file line args now s :=
  ⟨rfl, rfl, rfl, rfl⟩

/-- C8: opening in append mode never changes existing content, and two
    successive Logger instances on the same path, each emitting one line,
    leave the prior content followed by both lines in order. -/
theorem C8_append_semantics (s0 : SysState) (name : String)
    (lv1 lv2 level1 level2 : LogLevel) (f1 f2 : String) (ln1 ln2 : Int)
    (a1 a2 : List String) (t1 t2 : Tm)
    (h1 : lv1.toInt ≤ level1.toInt) (h2 : lv2.toInt ≤ level2.toInt) :
    (∀ (nm : String) (lv : LogLevel) (ok : Bool) (s : SysState),
        (Logger.construct nm lv ok s).2.fileContent = s.fileContent)
    ∧ (let r1 := Logger.construct name lv1 true s0
       let s1 := r1.1.log level1 f1 ln1 a1 t1 r1.2
       let s1c := r1.1.destruct s1
       let r2 := Logger.construct name lv2 true s1c
       let s2 := r2.1.log level2 f2 ln2 a2 t2 r2.2
       s2.fileContent
         = s0.fileContent ++ logLine level1 f1 ln1 a1 t1
             ++ logLine level2 f2 ln2 a2 t2) := by
  constructor
  · intro nm lv ok s
    rw [Logger.construct]
    rcases ok with _ | _ <;> rfl
  · show ((⟨lv2, name, true⟩ : Logger).log level2 f2 ln2 a2 t2
        ((⟨lv1, name, true⟩ : Logger).log level1 f1 ln1 a1 t1 s0)).fileContent
      = _
    rw [log_emit ⟨lv1, name, true⟩ level1 f1 ln1 a1 t1 s0 h1 rfl,
      log_emit ⟨lv2, name, true⟩ level2 f2 ln2 a2 t2 _ h2 rfl]

/-- C8 witness: two successive instances on the same path, each appending one
    concrete line after preexisting content. -/
theorem C8_append_semantics_witness :
    (let r1 := Logger.construct "my_log.txt" LogLevel.INFO true
        ⟨"old" ++ "\n", ""⟩
     let s1 := r1.1.log .INFO "a.cpp" 1 ["first"] tm0 r1.2
     let s1c := r1.1.destruct s1
     let r2 := Logger.construct "my_log.txt" LogLevel.INFO true s1c
     let s2 := r2.1.log .ERROR "b.cpp" 2 ["second"] tm0 r2.2
     s2.fileContent
       = "old" ++ "\n"
         ++ "2024-01-01 12:00:00 [INFO] a.cpp:1 - first" ++ "\n"
         ++ "2024-01-01 12:00:00 [ERROR] b.cpp:2 - second" ++ "\n") := by
  have h := C8_append_semantics ⟨"old" ++ "\n", ""⟩ "my_log.txt" .INFO .INFO
    .INFO .ERROR "a.cpp" "b.cpp" 1 2 ["first"] ["second"] tm0 tm0
    (by decide) (by decide)
  exact h.2.trans (by decide)

/-- C9: in the interleaving semantics of the mutex-guarded critical section,
    any complete execution of N threads that each issue one error call (each
    thread formats its own header before entering; ERROR always passes the
    filter) appends exactly N intact lines: the final file equals the initial
    content followed by the N calls' full lines contiguously in some order —
    equivalently, it equals running the same N error calls sequentially in
    that order — and the newline count grows by exactly N; the order across
    threads is whichever entry order the schedule produced. -/
theorem C9_concurrent_write_atomicity {n : Nat} (lg : Logger)
    (files : Fin n → String) (lines : Fin n → Int)
    (argss : Fin n → List String) (nows : Fin n → Tm) (s0 : SysState)
    (cfin : Config n) (hOpen : lg.isOpen = true)
    (hFiles : ∀ i, countNewlines (files i) = 0)
    (hArgs : ∀ i, ∀ a ∈ argss i, countNewlines a = 0)
    (hSteps : CSteps (fun i => commitPieces
        (logHeader .ERROR (files i) (lines i) (nows i)) (argss i))
        ⟨fun _ => .idle, s0.fileContent⟩ cfin)
    (hDone : ∀ i, cfin.threads i = .finished) :
    ∃ ord : List (Fin n), ord.Nodup ∧ (∀ i, i ∈ ord) ∧ ord.length = n
      ∧ cfin.content = s0.fileContent ++ concatAll (ord.map fun i =>
          logLine .ERROR (files i) (lines i) (argss i) (nows i))
      ∧ cfin.content
          = (seqRunError lg files lines argss nows ord s0).fileContent
      ∧ countNewlines cfin.content = countNewlines s0.fileContent + n := by
  have hInv : MutexInv (fun i => commitPieces
      (logHeader .ERROR (files i) (lines i) (nows i)) (argss i))
      s0.fileContent cfin :=
    mutexInv_steps _ s0.fileContent ⟨fun _ => .idle, s0.fileContent⟩ cfin
      hSteps (mutexInv_init _ s0.fileContent)
  obtain ⟨ord, hnd, hall, hlen, hcon⟩ :=
    mutexInv_final _ s0.fileContent cfin hInv hDone
  have hmap : ord.map (fun i => concatAll (commitPieces
        (logHeader .ERROR (files i) (lines i) (nows i)) (argss i)))
      = ord.map fun i =>
          logLine .ERROR (files i) (lines i) (argss i) (nows i) :=
    List.map_congr_left fun j _ => by
      rw [concatAll_commitPieces, logLine, logRecord]
  have hcon2 : cfin.content = s0.fileContent ++ concatAll (ord.map fun i =>
      logLine .ERROR (files i) (lines i) (argss i) (nows i)) := by
    rw [hcon, hmap]
  refine ⟨ord, hnd, hall, hlen, hcon2, ?_, ?_⟩
  · rw [seqRunError_content lg files lines argss nows ord s0 hOpen, hcon2]
  · rw [hcon2, countNewlines_append, countNewlines_concatAll_ones]
    · rw [List.length_map, hlen]
    · intro a ha
      obtain ⟨j, _, rfl⟩ := List.mem_map.mp ha
      exact countNewlines_logLine .ERROR (files j) (lines j) (argss j)
        (nows j) (hFiles j) (hArgs j)

/-- C9 witness: a complete one-thread schedule — lock, write the header,
    write the terminator, unlock — reaches a final configuration to which the
    theorem applies, yielding exactly one intact line. -/
theorem C9_concurrent_write_atomicity_witness :
    ∃ cfin : Config 1,
      CSteps (fun _ : Fin 1 => commitPieces
          (logHeader .ERROR "main.cpp" 1 tm0) [])
        ⟨fun _ => TStatus.idle, ""⟩ cfin
      ∧ (∀ i, cfin.threads i = TStatus.finished)
      ∧ ∃ ord : List (Fin 1), ord.Nodup ∧ (∀ i, i ∈ ord) ∧ ord.length = 1
          ∧ cfin.content = "" ++ concatAll (ord.map fun _ =>
              logLine .ERROR "main.cpp" 1 [] tm0)
          ∧ cfin.content
              = (seqRunError (⟨LogLevel.DEBUG, "my_log.txt", true⟩ : Logger)
                  (fun _ => "main.cpp") (fun _ => (1 : Int))
                  (fun _ => ([] : List String)) (fun _ => tm0) ord
                  ⟨"", ""⟩).fileContent
          ∧ countNewlines cfin.content = countNewlines "" + 1 := by
  have hchain : ∃ cfin : Config 1,
      CSteps (fun _ : Fin 1 => commitPieces
          (logHeader .ERROR "main.cpp" 1 tm0) [])
        ⟨fun _ => TStatus.idle, ""⟩ cfin
      ∧ ∀ i, cfin.threads i = TStatus.finished := by
    exact ⟨_, Relation.ReflTransGen.head
        (CStep.lock ⟨fun _ => TStatus.idle, ""⟩ 0 rfl (fun j k h => nomatch h))
        (Relation.ReflTransGen.head
          (CStep.push _ 0 0 (by decide) rfl)
          (Relation.ReflTransGen.head
            (CStep.push _ 0 1 (by decide) rfl)
            (Relation.ReflTransGen.single
              (CStep.unlock _ 0 rfl)))),
      fun i => by rw [Subsingleton.elim i 0]; rfl⟩
  obtain ⟨cfin, hst, hdn⟩ := hchain
  exact ⟨cfin, hst, hdn,
    C9_concurrent_write_atomicity ⟨LogLevel.DEBUG, "my_log.txt", true⟩
      (fun _ => "main.cpp") (fun _ => (1 : Int)) (fun _ => ([] : List String))
      (fun _ => tm0) ⟨"", ""⟩ cfin rfl
      (fun _ => (by decide : countNewlines "main.cpp" = 0))
      (fun _ a ha => nomatch ha) hst hdn⟩

/-- C10: the variadic rendering helper consumes exactly one part per
    recursive step, reaches the zero-argument base case on every finite pack,
    performs exactly one stream insertion per part, and in total writes the
    in-order concatenation of the parts (the Lean definition is accepted by
    structural recursion on the pack, which is the termination argument). -/
theorem C10_logMessage_terminates (stream : String) (args : List String) :
    logMessage stream args = stream ++ concatAll args
    ∧ (∀ v rest, logMessage stream (v :: rest) = logMessage (stream ++ v) rest)
    ∧ logMessage stream [] = stream
    ∧ logMessageSteps args = args.length := by
  refine ⟨logMessage_eq_concatAll stream args, fun v rest => rfl, rfl, ?_⟩
  induction args with
  | nil => rfl
  | cons a rest ih => rw [logMessageSteps, ih, List.length_cons]

end LoggerModel
